import Mathlib

/-!
Shallow embedding of cp2kparser/parser.py (nlesc-nano/CP2K-Parser).

Python strings are modelled as Lean `String` (a wrapper around `List Char`);
the Python string methods used by the parser (`lower`, `split`, `lstrip`,
`rstrip`, `replace`, slicing, `in`) are modelled by explicit functions over
`String.data` below.  Python `dict` (insertion ordered, assignment replaces
in place) is modelled as an association list.  Exceptions are modelled with
`Except`: `StopIteration` raised by `next` on an exhausted generator and
`IndexError` raised by indexing an empty string.  The mutually recursive
`recursive_update` / `parse_header` pair is modelled as one fuel-indexed
structurally recursive function (`recursive_update`), with `parse_header`
defined as the corresponding non-recursive wrapper; the agreement between
the two is proved (`recursive_update_header_step`).
-/

/-- Values stored in the parsed document: Python str / int / float /
dict / list.  Python floats are represented by their exact rational value
(IEEE-754 rounding of literals is not modelled; none of the statements
below depend on it). -/
inductive Node where
  | str (s : String)
  | int (n : Int)
  | float (q : Rat)
  | dict (entries : List (String × Node))
  | list (elems : List Node)

/-- Python `isinstance(x, list)` on a stored `Node`. -/
def Node.isList : Node → Bool
  | .list _ => true
  | _ => false

/-- Exceptions the parser can raise: `StopIteration` (from `next` on an
exhausted generator, parser.py line 287/292), `IndexError` (from `item[0]`
on an empty string, line 313), and exhaustion of the recursion fuel (never
reached for adequate fuel). -/
inductive Err where
  | stopIteration
  | indexError
  | fuelOut
deriving DecidableEq

/-- A Python `dict` with string keys: an insertion-ordered association list. -/
abbrev Dict := List (String × Node)

/-- Python `d[key]` lookup (`None` when the key is absent, i.e. `key in d`
is `False`). -/
def dictLookup : Dict → String → Option Node
  | [], _ => none
  | (k, v) :: d, key => if k == key then some v else dictLookup d key

/-- Python `d[key] = v`: replace the value in place when the key exists,
otherwise append the new binding at the end. -/
def dictSet : Dict → String → Node → Dict
  | [], key, v => [(key, v)]
  | (k, w) :: d, key, v =>
    if k == key then (key, v) :: d else (k, w) :: dictSet d key v

/-- Python `s.lower()` (ASCII case folding, which is all the parser meets). -/
def strLower (s : String) : String := String.mk (s.data.map Char.toLower)

/-- Python slicing `s[0:n]`. -/
def strTake (n : Nat) (s : String) : String := String.mk (s.data.take n)

/-- Python `c in s` for a single character `c`. -/
def strHasChar (s : String) (c : Char) : Bool := s.data.contains c

/-- Remove trailing characters satisfying `p` (Python `rstrip`). -/
def dropTrailing (p : Char → Bool) (l : List Char) : List Char :=
  (l.reverse.dropWhile p).reverse

/-- Python whitespace for `strip`-family methods restricted to the
characters occurring in text input: space, tab, newline, carriage return.
This is Lean's `Char.isWhitespace`. -/
def pyWS (c : Char) : Bool := c.isWhitespace

/-- Python `s.strip()` (used implicitly by `int(...)`/`float(...)`, which
ignore surrounding whitespace). -/
def pyStrip (s : String) : String :=
  String.mk ((dropTrailing pyWS s.data).dropWhile pyWS)

/-- The line sanitizer of `read_input` (parser.py lines 428-430):
`item.rstrip(chr(10)).rstrip().replace(chr(9), str()).lstrip(chr(32))`,
i.e. drop trailing newlines, then trailing whitespace, then every tab,
then leading spaces. -/
def sanitize_line (s : String) : String :=
  let l1 := dropTrailing (· == '\n') s.data
  let l2 := dropTrailing pyWS l1
  let l3 := l2.filter (fun c => c != '\t')
  String.mk (l3.dropWhile (· == ' '))

/-- Value of a non-empty all-digit character list; `none` otherwise. -/
def digitsVal? (l : List Char) : Option Nat :=
  if l.isEmpty || !(l.all Char.isDigit) then none
  else some (l.foldl (fun acc c => 10 * acc + (c.toNat - 48)) 0)

/-- Python `int(s)` for a string argument: optional surrounding whitespace,
optional sign, then a non-empty run of decimal digits; anything else raises
`ValueError` (modelled as `none`).  Digit-group underscores are not
modelled (they never occur in this parser's inputs). -/
def pyint? (s : String) : Option Int :=
  match (pyStrip s).data with
  | '+' :: r => (digitsVal? r).map (fun n => (n : Int))
  | '-' :: r => (digitsVal? r).map (fun n => -(n : Int))
  | r => (digitsVal? r).map (fun n => (n : Int))

/-- Split `l` at the first character satisfying `p`: the part before it and,
when it occurs, the part after it. -/
def splitAtChar (p : Char → Bool) (l : List Char) :
    List Char × Option (List Char) :=
  let (a, r) := l.span (fun c => !(p c))
  match r with
  | [] => (a, none)
  | _ :: rest => (a, some rest)

/-- Python `float(s)` for a string argument, on finite decimal literals:
optional surrounding whitespace, optional sign, a mantissa `digits`,
`digits.digits`, `digits.` or `.digits`, and an optional exponent
`(e|E)[+-]digits`.  The result is the exact rational value of the literal.
The special forms inf/infinity/nan and digit-group underscores are not
modelled (they never occur in this parser's inputs). -/
def pyfloat? (s : String) : Option Rat :=
  let t := (pyStrip s).data
  let (sign, t1) : Int × List Char :=
    match t with
    | '+' :: r => (1, r)
    | '-' :: r => (-1, r)
    | r => (1, r)
  let (mant, expPart) := splitAtChar (fun c => c == 'e' || c == 'E') t1
  let expVal? : Option Int :=
    match expPart with
    | none => some 0
    | some ep =>
      match ep with
      | '+' :: r => (digitsVal? r).map (fun n => (n : Int))
      | '-' :: r => (digitsVal? r).map (fun n => -(n : Int))
      | r => (digitsVal? r).map (fun n => (n : Int))
  match expVal? with
  | none => none
  | some e =>
    let (ipart, fpart?) := splitAtChar (fun c => c == '.') mant
    let fpart := fpart?.getD []
    if ipart.isEmpty && fpart.isEmpty then none
    else if !(ipart.all Char.isDigit) || !(fpart.all Char.isDigit) then none
    else
      let mval : Nat := (ipart ++ fpart).foldl
        (fun acc c => 10 * acc + (c.toNat - 48)) 0
      some (mkRat (sign * (mval : Int) *
          (if 0 ≤ e then ((10 : Int) ^ e.toNat) else 1))
        ((10 : Nat) ^ fpart.length *
          (if 0 ≤ e then 1 else (10 : Nat) ^ (-e).toNat)))

/-- parser.py `value_to_float` (lines 60-89): try `float(item)`, return the
string unchanged on `ValueError`. -/
def value_to_float (item : String) : Node :=
  match pyfloat? item with
  | some q => .float q
  | none => .str item

/-- parser.py `value_to_int` (lines 92-121): try `int(item)`, return the
string unchanged on `ValueError`. -/
def value_to_int (item : String) : Node :=
  match pyint? item with
  | some n => .int n
  | none => .str item

/-- Python `item.split(chr(32), maxsplit=1)` unpacked into two values:
`none` models the `ValueError` of unpacking a one-element result (no space
present). -/
def splitOnceSpace (item : String) : Option (String × String) :=
  let (a, r) := item.data.span (fun c => c != ' ')
  match r with
  | [] => none
  | _ :: rest => some (String.mk a, String.mk rest)

/-- Python `s.lstrip(chr(38))`: drop every leading ampersand. -/
def lstripAmp (s : String) : String :=
  String.mk (s.data.dropWhile (· == '&'))

/-- parser.py `parse_multi_keys` (lines 172-210) at the default separator:
split at the first space, strip leading ampersands from the first word and
lowercase it, re-join with a single space.  Python raises `ValueError` when
no space is present; every call site guards with a space-membership test,
so that branch is unreachable and modelled by returning `item`. -/
def parse_multi_keys (item : String) : String :=
  match splitOnceSpace item with
  | some (i1, i2) => strLower (lstripAmp i1) ++ " " ++ i2
  | none => item

/-- parser.py `split_str` (lines 124-169) at the default separator
(`sep = chr(32)`): split at the first space into key and value (whole line
and empty value when no space occurs), then lowercase the key — via
`parse_multi_keys` when the key still contains a space, which cannot happen
for a single-character separator, so the first branch is dead code kept for
faithfulness. -/
def split_str (item : String) : String × String :=
  let kv := match splitOnceSpace item with
    | some kv => kv
    | none => (item, "")
  if strHasChar kv.1 ' ' then (parse_multi_keys kv.1, kv.2)
  else (strLower kv.1, kv.2)

/-- Key normalization of parser.py `parse_header` (lines 231-234):
multi-word headers go through `parse_multi_keys`, single-word headers are
stripped of leading ampersands and lowercased. -/
def headerKey (item : String) : String :=
  if strHasChar item ' ' then parse_multi_keys item
  else strLower (lstripAmp item)

/-- The value coercion of parser.py `parse_block` (lines 267-270): attempt
float conversion when the raw value contains a dot, integer conversion
otherwise; either falls back to the unchanged string. -/
def coerce_value (value : String) : Node :=
  if strHasChar value '.' then value_to_float value
  else value_to_int value

/-- parser.py `parse_block` (lines 253-271): split the line, coerce the
value, store it with `container[key] = value` (plain overwrite). -/
def parse_block (item : String) (container : Dict) : Dict :=
  let kv := split_str item
  dictSet container kv.1 (coerce_value kv.2)

/-- The `while item.lower() != ...` loop of `parse_coord_block`
(lines 287-292), started at the `next(input_gen)` call: collect raw lines
until (and consuming) the first line whose lowercasing is the terminator
sentinel; `next` on an exhausted generator raises `StopIteration`. -/
def coordLoop : List String → Except Err (List String × List String)
  | [] => .error .stopIteration
  | l :: ls =>
    if strLower l == "&end" then .ok (ls, [])
    else
      match coordLoop ls with
      | .ok (rest, acc) => .ok (rest, l :: acc)
      | .error e => .error e

/-- parser.py `parse_coord_block` (lines 274-293): store the collected raw
lines verbatim as `container[coordKey][listKey]`; on success the container
holds exactly the dictionary built by the Python mutations. -/
def parse_coord_block (lines : List String) (container : Dict) :
    Except Err (List String × Dict) :=
  match coordLoop lines with
  | .ok (rest, coord) =>
    .ok (rest, dictSet container "coord"
      (.dict [("_1", .list (coord.map Node.str))]))
  | .error e => .error e

/-- The dispatch classes of the `for` body of `recursive_update`
(lines 310-317). -/
inductive LineKind where
  | coordBlock
  | header
  | keyvalue
  | terminator
  | indexErr
deriving DecidableEq

/-- The per-line dispatch of `recursive_update` (lines 310-317), literally:
`item.lower() == a coord sentinel` first; then `item[0]` — an `IndexError`
on the empty string; then `item[0] == chr(38) and item[0:4].lower() != an
end sentinel` opens a header; then the same slice test alone selects a
key/value line; otherwise the line terminates the block. -/
def lineDispatch (item : String) : LineKind :=
  if strLower item == "&coord" then .coordBlock
  else
    match item.data with
    | [] => .indexErr
    | c :: _ =>
      if c == '&' && strLower (strTake 4 item) != "&end" then .header
      else if strLower (strTake 4 item) != "&end" then .keyvalue
      else .terminator

/-- parser.py `recursive_update` (lines 296-318), fuel-indexed.  The body of
`parse_header` (lines 236-250) is inlined in the `.header` arm so that the
mutual recursion becomes structural recursion on the fuel; the wrapper
`parse_header` below and `recursive_update_header_step` recover the source
decomposition.  One unit of fuel is spent per entry; `parse_sanitized`
supplies fuel that is proved adequate (`recursive_update_fuel_irrelevant`). -/
def recursive_update : Nat → List String → Dict →
    Except Err (List String × Dict)
  | 0, _, _ => .error .fuelOut
  | _ + 1, [], container => .ok ([], container)
  | fuel + 1, item :: rest, container =>
    match lineDispatch item with
    | .coordBlock =>
      match parse_coord_block rest container with
      | .ok (rest', c') => recursive_update fuel rest' c'
      | .error e => .error e
    | .header =>
      match dictLookup container (headerKey item) with
      | some (.list l) =>
        match recursive_update fuel rest [] with
        | .ok (rest', sub) =>
          recursive_update fuel rest'
            (dictSet container (headerKey item) (.list (l ++ [.dict sub])))
        | .error e => .error e
      | some v =>
        match recursive_update fuel rest [] with
        | .ok (rest', sub) =>
          recursive_update fuel rest'
            (dictSet container (headerKey item) (.list [v, .dict sub]))
        | .error e => .error e
      | none =>
        match recursive_update fuel rest [] with
        | .ok (rest', sub) =>
          recursive_update fuel rest'
            (dictSet container (headerKey item) (.dict sub))
        | .error e => .error e
    | .keyvalue => recursive_update fuel rest (parse_block item container)
    | .terminator => .ok (rest, container)
    | .indexErr => .error .indexError

/-- parser.py `parse_header` (lines 213-250): normalize the header into a
key, then apply the duplicate-key rule — append a new empty mapping when the
stored value is already a list, promote to a two-element list when the key
exists with a non-list value, create a fresh mapping otherwise — recursing
into the new mapping in every case. -/
def parse_header (fuel : Nat) (lines : List String) (item : String)
    (container : Dict) : Except Err (List String × Dict) :=
  match dictLookup container (headerKey item) with
  | some (.list l) =>
    match recursive_update fuel lines [] with
    | .ok (rest, sub) =>
      .ok (rest, dictSet container (headerKey item) (.list (l ++ [.dict sub])))
    | .error e => .error e
  | some v =>
    match recursive_update fuel lines [] with
    | .ok (rest, sub) =>
      .ok (rest, dictSet container (headerKey item) (.list [v, .dict sub]))
    | .error e => .error e
  | none =>
    match recursive_update fuel lines [] with
    | .ok (rest, sub) =>
      .ok (rest, dictSet container (headerKey item) (.dict sub))
    | .error e => .error e

/-- The core of parser.py `read_input` (lines 435-440) on an already
sanitized line list: run `recursive_update` on a fresh dictionary and
return it, ignoring any unconsumed lines.  The fuel `ls.length + 1` is
adequate: one line is consumed before any deeper entry. -/
def parse_sanitized (ls : List String) : Except Err Dict :=
  match recursive_update (ls.length + 1) ls [] with
  | .ok (_, c) => .ok c
  | .error e => .error e

/-- The list-comprehension filter of `read_input` (line 433) followed by
per-line sanitizing: keep lines other than a bare newline, sanitize each. -/
def sanitize_input (raw : List String) : List String :=
  (raw.filter (fun s => s != "\n")).map sanitize_line

/-- parser.py `read_input` (lines 432-440) modelled from the raw file lines
(each as produced by file iteration, trailing newline included): sanitize,
then parse. -/
def read_input_from (raw : List String) : Except Err Dict :=
  parse_sanitized (sanitize_input raw)

/-! Supporting lemmas. -/

theorem dictLookup_dictSet_self (d : Dict) (k : String) (v : Node) :
    dictLookup (dictSet d k v) k = some v := by
  induction d with
  | nil => simp [dictSet, dictLookup]
  | cons hd tl ih =>
    obtain ⟨k', w⟩ := hd
    by_cases h : k' == k
    · simp [dictSet, h, dictLookup]
    · simp [dictSet, h, dictLookup, ih]

theorem strLower_strTake (n : Nat) (s : String) :
    strLower (strTake n s) = strTake n (strLower s) := by
  simp [strLower, strTake, List.map_take]

theorem eq_empty_of_data_nil {s : String} (h : s.data = []) : s = "" := by
  cases s with
  | mk data => cases h; rfl

theorem coordLoop_suffix :
    ∀ (ls rest acc : List String), coordLoop ls = .ok (rest, acc) →
      rest <:+ ls := by
  intro ls
  induction ls with
  | nil => intro rest acc h; simp [coordLoop] at h
  | cons l tl ih =>
    intro rest acc h
    by_cases hl : strLower l == "&end"
    · simp [coordLoop, hl] at h
      obtain ⟨h1, _⟩ := h
      exact h1 ▸ List.suffix_cons l tl
    · simp [coordLoop, hl] at h
      cases hc : coordLoop tl with
      | ok p =>
        obtain ⟨r0, a0⟩ := p
        rw [hc] at h
        simp at h
        obtain ⟨h1, _⟩ := h
        exact ((h1 ▸ ih r0 a0 hc) : rest <:+ tl).trans (List.suffix_cons l tl)
      | error e => rw [hc] at h; simp at h

theorem coordLoop_no_end :
    ∀ (ls : List String), (∀ l ∈ ls, strLower l ≠ "&end") →
      coordLoop ls = .error .stopIteration := by
  intro ls
  induction ls with
  | nil => intro _; rfl
  | cons l tl ih =>
    intro h
    have hl : (strLower l == "&end") = false := by
      simp [h l (List.mem_cons_self l tl)]
    simp [coordLoop, hl, ih (fun x hx => h x (List.mem_cons_of_mem l hx))]

theorem coordLoop_capture :
    ∀ (ls : List String) (term : String) (rest : List String),
      (∀ l ∈ ls, strLower l ≠ "&end") → strLower term = "&end" →
      coordLoop (ls ++ term :: rest) = .ok (rest, ls) := by
  intro ls
  induction ls with
  | nil =>
    intro term rest _ hterm
    simp [coordLoop, hterm]
  | cons l tl ih =>
    intro term rest h hterm
    have hl : (strLower l == "&end") = false := by
      simp [h l (List.mem_cons_self l tl)]
    simp [coordLoop, hl,
      ih term rest (fun x hx => h x (List.mem_cons_of_mem l hx)) hterm]

theorem recursive_update_header_step (fuel : Nat) (item : String)
    (rest : List String) (container : Dict)
    (h : lineDispatch item = .header) :
    recursive_update (fuel + 1) (item :: rest) container =
      match parse_header fuel rest item container with
      | .ok (rest', c') => recursive_update fuel rest' c'
      | .error e => .error e := by
  simp only [recursive_update, h, parse_header]
  cases hd : dictLookup container (headerKey item) with
  | none =>
    cases hr : recursive_update fuel rest [] with
    | ok p => obtain ⟨r, s⟩ := p; simp
    | error e => simp
  | some v =>
    cases v with
    | list l =>
      cases hr : recursive_update fuel rest [] with
      | ok p => obtain ⟨r, s⟩ := p; simp
      | error e => simp
    | str s =>
      cases hr : recursive_update fuel rest [] with
      | ok p => obtain ⟨r, s'⟩ := p; simp
      | error e => simp
    | int n =>
      cases hr : recursive_update fuel rest [] with
      | ok p => obtain ⟨r, s'⟩ := p; simp
      | error e => simp
    | float q =>
      cases hr : recursive_update fuel rest [] with
      | ok p => obtain ⟨r, s'⟩ := p; simp
      | error e => simp
    | dict d =>
      cases hr : recursive_update fuel rest [] with
      | ok p => obtain ⟨r, s'⟩ := p; simp
      | error e => simp

theorem parse_coord_block_suffix (ls : List String) (c : Dict)
    (r : List String) (c' : Dict)
    (h : parse_coord_block ls c = .ok (r, c')) : r <:+ ls := by
  unfold parse_coord_block at h
  cases hcl : coordLoop ls with
  | ok q =>
    obtain ⟨r2, acc⟩ := q
    rw [hcl] at h
    simp at h
    obtain ⟨rfl, rfl⟩ := h
    exact coordLoop_suffix ls r2 acc hcl
  | error e => rw [hcl] at h; simp at h

theorem ru_suffix_aux (f : Nat) (rest : List String) (k : String) (c : Dict)
    (g : Dict → Node) (r : List String) (c' : Dict)
    (ih : ∀ ls cc rr cc', recursive_update f ls cc = .ok (rr, cc') → rr <:+ ls)
    (h : (match recursive_update f rest [] with
          | .ok (r1, sub) => recursive_update f r1 (dictSet c k (g sub))
          | .error e => .error e) = .ok (r, c')) : r <:+ rest := by
  cases hr : recursive_update f rest [] with
  | ok p =>
    obtain ⟨r1, sub⟩ := p
    rw [hr] at h
    exact (ih _ _ _ _ h).trans (ih _ _ _ _ hr)
  | error e => rw [hr] at h; simp at h

/-- A successful run of `recursive_update` leaves a suffix of its input
lines unconsumed. -/
theorem recursive_update_suffix :
    ∀ (fuel : Nat) (ls : List String) (c : Dict) (r : List String) (c' : Dict),
      recursive_update fuel ls c = .ok (r, c') → r <:+ ls := by
  intro fuel
  induction fuel with
  | zero => intro ls c r c' h; simp [recursive_update] at h
  | succ f ih =>
    intro ls c r c' h
    cases ls with
    | nil =>
      simp [recursive_update] at h
      obtain ⟨rfl, rfl⟩ := h
      exact List.nil_suffix
    | cons item rest =>
      simp only [recursive_update] at h
      cases hd : lineDispatch item <;> rw [hd] at h
      case coordBlock =>
        cases hpc : parse_coord_block rest c with
        | ok p =>
          obtain ⟨r1, c1⟩ := p
          rw [hpc] at h
          exact (((ih r1 c1 r c' h).trans
            (parse_coord_block_suffix rest c r1 c1 hpc)).trans
            (List.suffix_cons item rest))
        | error e => rw [hpc] at h; simp at h
      case header =>
        simp only [] at h
        have hsub : r <:+ rest := by
          cases hl : dictLookup c (headerKey item) <;> rw [hl] at h
          case none => exact ru_suffix_aux f rest _ c (fun sub => .dict sub) r c' ih h
          case some v =>
            cases v <;>
              first
              | exact ru_suffix_aux f rest _ c (fun sub => .list [_, .dict sub]) r c' ih h
              | exact ru_suffix_aux f rest _ c (fun sub => .list (_ ++ [.dict sub])) r c' ih h
        exact hsub.trans (List.suffix_cons item rest)
      case keyvalue => exact (ih _ _ _ _ h).trans (List.suffix_cons item rest)
      case terminator =>
        simp at h
        obtain ⟨rfl, rfl⟩ := h
        exact List.suffix_cons item rest
      case indexErr => simp at h

theorem lineDispatch_coord_iff (item : String) :
    lineDispatch item = .coordBlock ↔ strLower item = "&coord" := by
  unfold lineDispatch
  split
  · rename_i h
    exact iff_of_true rfl (by simpa using h)
  · rename_i h
    split
    · exact iff_of_false (by simp) (by simpa using h)
    · split
      · exact iff_of_false (by simp) (by simpa using h)
      · split
        · exact iff_of_false (by simp) (by simpa using h)
        · exact iff_of_false (by simp) (by simpa using h)

theorem lineDispatch_indexErr_iff (item : String) :
    lineDispatch item = .indexErr ↔ item = "" := by
  unfold lineDispatch
  split
  · rename_i h
    have hcoord : strLower item = "&coord" := by simpa using h
    refine iff_of_false (by simp) (fun he => ?_)
    rw [he] at hcoord
    exact absurd hcoord (by decide)
  · rename_i h
    split
    · rename_i heq
      exact iff_of_true rfl (eq_empty_of_data_nil heq)
    · rename_i ch tl heq
      have hne : item ≠ "" := by
        intro he
        rw [he] at heq
        exact absurd heq (by simp)
      split
      · exact iff_of_false (by simp) hne
      · split
        · exact iff_of_false (by simp) hne
        · exact iff_of_false (by simp) hne

/-- The fuel supplied by `parse_sanitized` is adequate: any two fuels
strictly above the number of remaining lines give identical results, so
`recursive_update` is a total function of the lines (one line is consumed
before any nested entry). -/
theorem recursive_update_fuel_irrelevant :
    ∀ (f g : Nat) (ls : List String) (c : Dict),
      ls.length < f → ls.length < g →
      recursive_update f ls c = recursive_update g ls c := by
  intro f
  induction f with
  | zero => intro g ls c hf _; exact absurd hf (Nat.not_lt_zero _)
  | succ f ih =>
    intro g ls c hf hg
    cases g with
    | zero => exact absurd hg (Nat.not_lt_zero _)
    | succ g =>
      cases ls with
      | nil => simp [recursive_update]
      | cons item rest =>
        have hf' : rest.length < f :=
          Nat.lt_of_succ_lt_succ (by simpa using hf)
        have hg' : rest.length < g :=
          Nat.lt_of_succ_lt_succ (by simpa using hg)
        simp only [recursive_update]
        cases hd : lineDispatch item
        case coordBlock =>
          cases hpc : parse_coord_block rest c with
          | ok p =>
            obtain ⟨r1, c1⟩ := p
            have h1 : r1 <:+ rest := parse_coord_block_suffix rest c r1 c1 hpc
            exact ih g r1 c1 (Nat.lt_of_le_of_lt h1.length_le hf')
              (Nat.lt_of_le_of_lt h1.length_le hg')
          | error e => rfl
        case header =>
          cases hl : dictLookup c (headerKey item) with
          | none =>
            rw [← ih g rest [] hf' hg']
            cases hr : recursive_update f rest [] with
            | ok p =>
              obtain ⟨r1, sub⟩ := p
              have h1 : r1 <:+ rest :=
                recursive_update_suffix f rest [] r1 sub hr
              exact ih g r1 _ (Nat.lt_of_le_of_lt h1.length_le hf')
                (Nat.lt_of_le_of_lt h1.length_le hg')
            | error e => rfl
          | some v =>
            cases v <;>
              (rw [← ih g rest [] hf' hg']
               cases hr : recursive_update f rest [] with
               | ok p =>
                 obtain ⟨r1, sub⟩ := p
                 have h1 : r1 <:+ rest :=
                   recursive_update_suffix f rest [] r1 sub hr
                 exact ih g r1 _ (Nat.lt_of_le_of_lt h1.length_le hf')
                   (Nat.lt_of_le_of_lt h1.length_le hg')
               | error e => rfl)
        case keyvalue => exact ih g rest _ hf' hg'
        case terminator => rfl
        case indexErr => rfl

/-- On inputs whose sanitized lines are all non-empty and none of which is
the coordinate sentinel, `recursive_update` always returns successfully:
running out of input while nested blocks are still open is treated as an
implicit terminator, never an error. -/
theorem recursive_update_total :
    ∀ (f : Nat) (ls : List String) (c : Dict), ls.length < f →
      (∀ l ∈ ls, l ≠ "" ∧ strLower l ≠ "&coord") →
      ∃ r c', recursive_update f ls c = .ok (r, c') := by
  intro f
  induction f with
  | zero => intro ls c hf _; exact absurd hf (Nat.not_lt_zero _)
  | succ f ih =>
    intro ls c hf hpred
    cases ls with
    | nil => exact ⟨[], c, by simp [recursive_update]⟩
    | cons item rest =>
      have hf' : rest.length < f :=
        Nat.lt_of_succ_lt_succ (by simpa using hf)
      have hpred' : ∀ l ∈ rest, l ≠ "" ∧ strLower l ≠ "&coord" :=
        fun l hl => hpred l (List.mem_cons_of_mem item hl)
      have hitem := hpred item (List.mem_cons_self item rest)
      simp only [recursive_update]
      cases hd : lineDispatch item
      case coordBlock =>
        exact absurd ((lineDispatch_coord_iff item).mp hd) hitem.2
      case indexErr =>
        exact absurd ((lineDispatch_indexErr_iff item).mp hd) hitem.1
      case terminator => exact ⟨rest, c, rfl⟩
      case keyvalue => exact ih rest (parse_block item c) hf' hpred'
      case header =>
        cases hl : dictLookup c (headerKey item) with
        | none =>
          obtain ⟨r1, sub, hr⟩ := ih rest [] hf' hpred'
          rw [hr]
          have h1 : r1 <:+ rest := recursive_update_suffix f rest [] r1 sub hr
          exact ih r1 _ (Nat.lt_of_le_of_lt h1.length_le hf')
            (fun l hl' => hpred' l (h1.subset hl'))
        | some v =>
          cases v <;>
            (obtain ⟨r1, sub, hr⟩ := ih rest [] hf' hpred'
             rw [hr]
             have h1 : r1 <:+ rest := recursive_update_suffix f rest [] r1 sub hr
             exact ih r1 _ (Nat.lt_of_le_of_lt h1.length_le hf')
               (fun l hl' => hpred' l (h1.subset hl')))

theorem head?_drop_not {p : Char → Bool} {l : List Char} {c : Char}
    (h : (l.dropWhile p).head? = some c) : p c = false := by
  have hh := List.head?_dropWhile_not p l
  rw [h] at hh
  exact hh

theorem dropTrailing_eq_nil {p : Char → Bool} {l : List Char}
    (h : ∀ c ∈ l, p c = true) : dropTrailing p l = [] := by
  unfold dropTrailing
  have : l.reverse.dropWhile p = [] :=
    List.dropWhile_eq_nil_iff.mpr (fun x hx => h x (List.mem_reverse.mp hx))
  rw [this, List.reverse_nil]

theorem mem_dropTrailing {p : Char → Bool} {l : List Char} {c : Char}
    (h : c ∈ dropTrailing p l) : c ∈ l := by
  unfold dropTrailing at h
  exact List.mem_reverse.mp ((List.dropWhile_sublist p).subset (List.mem_reverse.mp h))

theorem getLast?_dropTrailing {p : Char → Bool} {l : List Char} {c : Char}
    (h : (dropTrailing p l).getLast? = some c) : p c = false := by
  unfold dropTrailing at h
  rw [List.getLast?_reverse] at h
  exact head?_drop_not h

theorem data_mk (l : List Char) : (String.mk l).data = l := rfl

/-! Claim theorems. -/

/-- C1: duplicate block-header promotion.  For block headers normalizing to
a key of the current container: a first occurrence (key absent) stores the
recursively parsed new mapping directly under the key; a second occurrence
(key present, not a list) replaces the stored value with the two-element
list of the old value and the new recursively parsed mapping; every further
occurrence (key present, already a list) appends the new recursively parsed
mapping at the end of the list. -/
theorem C1_duplicate_header_promotion (fuel : Nat) (lines : List String)
    (item : String) (c : Dict) (rest : List String) (sub : Dict)
    (h : recursive_update fuel lines [] = .ok (rest, sub)) :
    (dictLookup c (headerKey item) = none →
      parse_header fuel lines item c =
        .ok (rest, dictSet c (headerKey item) (.dict sub)))
    ∧ (∀ v, dictLookup c (headerKey item) = some v → v.isList = false →
      parse_header fuel lines item c =
        .ok (rest, dictSet c (headerKey item) (.list [v, .dict sub])))
    ∧ (∀ l, dictLookup c (headerKey item) = some (.list l) →
      parse_header fuel lines item c =
        .ok (rest, dictSet c (headerKey item) (.list (l ++ [.dict sub])))) := by
  refine ⟨?_, ?_, ?_⟩
  · intro hl
    simp [parse_header, hl, h]
  · intro v hl hv
    cases v <;> simp_all [parse_header, h, Node.isList]
  · intro l hl
    simp [parse_header, hl, h]

/-- Witness for C1 at a concrete three-occurrence sequence of the header
line for key k with an immediately terminated body. -/
theorem C1_witness :
    parse_header 1 ["&END"] "&K" [] = .ok ([], [("k", Node.dict [])])
    ∧ parse_header 1 ["&END"] "&K" [("k", Node.dict [])] =
        .ok ([], [("k", Node.list [Node.dict [], Node.dict []])])
    ∧ parse_header 1 ["&END"] "&K"
        [("k", Node.list [Node.dict [], Node.dict []])] =
        .ok ([], [("k", Node.list [Node.dict [], Node.dict [], Node.dict []])]) := by
  refine ⟨?_, ?_, ?_⟩
  · exact (C1_duplicate_header_promotion 1 ["&END"] "&K" [] [] [] rfl).1 rfl
  · exact (C1_duplicate_header_promotion 1 ["&END"] "&K"
      [("k", Node.dict [])] [] [] rfl).2.1 (Node.dict []) rfl rfl
  · exact (C1_duplicate_header_promotion 1 ["&END"] "&K"
      [("k", Node.list [Node.dict [], Node.dict []])] [] [] rfl).2.2
      [Node.dict [], Node.dict []] rfl

/-- C2, counterexample: after the key f has been promoted to a list of two
blocks, the later key/value line reverts it to the scalar 5 — the promoted
list does not persist. -/
theorem C2_counterexample :
    recursive_update 5 ["&F", "&END", "&F", "&END"] [] =
      .ok ([], [("f", Node.list [Node.dict [], Node.dict []])])
    ∧ parse_sanitized ["&F", "&END", "&F", "&END", "F 5"] =
      .ok [("f", Node.int 5)]
    ∧ Node.isList (Node.int 5) = false :=
  ⟨rfl, rfl, rfl⟩

/-- C2, amended: a later block header with the promoted key always keeps the
value a list (parse_header only appends); only key/value scalar lines can
revert it. -/
theorem C2_header_promotion_preserved (fuel : Nat) (lines : List String)
    (item : String) (c : Dict) (l : List Node) (r : List String) (c' : Dict)
    (hl : dictLookup c (headerKey item) = some (.list l))
    (h : parse_header fuel lines item c = .ok (r, c')) :
    ∃ l', dictLookup c' (headerKey item) = some (.list l') := by
  unfold parse_header at h
  rw [hl] at h
  cases hr : recursive_update fuel lines [] with
  | ok p =>
    obtain ⟨r1, sub⟩ := p
    rw [hr] at h
    simp at h
    obtain ⟨-, rfl⟩ := h
    exact ⟨l ++ [Node.dict sub], dictLookup_dictSet_self c (headerKey item) _⟩
  | error e => rw [hr] at h; simp at h

/-- Witness for C2's amended statement at a concrete promoted container. -/
theorem C2_witness :
    ∃ l', dictLookup [("f", Node.list [Node.dict []])] (headerKey "&F") =
      some (Node.list l') :=
  C2_header_promotion_preserved 1 ["&END"] "&F" [("f", Node.list [])] []
    [] [("f", Node.list [Node.dict []])] rfl rfl

/-- C3, counterexample: the claimed value of the splitter on a three-token
line is wrong — the code returns the first token lowercased and the whole
remainder, not a two-token key. -/
theorem C3_counterexample :
    split_str "A B C" = ("a", "B C") ∧ split_str "A B C" ≠ ("a B", "C") :=
  ⟨rfl, by decide⟩

/-- C3, amended: the splitter at the default separator gives key = first
token lowercased and value = everything after the first space; on a
separator-free line the key is the whole line lowercased and the value
empty. -/
theorem C3_split_examples :
    split_str "A" = ("a", "")
    ∧ split_str "A B" = ("a", "B")
    ∧ split_str "A B C" = ("a", "B C") :=
  ⟨rfl, rfl, rfl⟩

/-- C4: value coercion attempts float conversion exactly when the raw value
contains a dot and integer conversion otherwise, falls back to the
unchanged string when the attempted conversion fails, and on the three
reference inputs yields the integer 2, the float 2.0 and the string one. -/
theorem C4_value_coercion :
    (∀ v : String, strHasChar v '.' = true → coerce_value v = value_to_float v)
    ∧ (∀ v : String, strHasChar v '.' = false → coerce_value v = value_to_int v)
    ∧ (∀ v : String, pyfloat? v = none → value_to_float v = Node.str v)
    ∧ (∀ v : String, pyint? v = none → value_to_int v = Node.str v)
    ∧ coerce_value "2" = Node.int 2
    ∧ coerce_value "2.0" = Node.float 2
    ∧ coerce_value "one" = Node.str "one" := by
  refine ⟨?_, ?_, ?_, ?_, rfl, ?_, rfl⟩
  · intro v h; simp [coerce_value, h]
  · intro v h; simp [coerce_value, h]
  · intro v h; simp [value_to_float, h]
  · intro v h; simp [value_to_int, h]
  · rfl

/-- Witness for C4 at concrete inputs. -/
theorem C4_witness :
    coerce_value "LOW" = value_to_int "LOW"
    ∧ value_to_int "LOW" = Node.str "LOW"
    ∧ coerce_value ".TRUE." = value_to_float ".TRUE."
    ∧ value_to_float ".TRUE." = Node.str ".TRUE." :=
  ⟨C4_value_coercion.2.1 "LOW" rfl,
   C4_value_coercion.2.2.2.1 "LOW" rfl,
   C4_value_coercion.1 ".TRUE." rfl,
   C4_value_coercion.2.2.1 ".TRUE." rfl⟩

/-- C5, counterexample: a line that begins with the terminator sentinel but
continues with further characters is treated as a terminator (the dispatch
tests only the first four characters), not as a block header: the dispatch
classifies it as a terminator, its lowercasing differs from the sentinel,
and a run returns immediately leaving the following lines unconsumed and
the container untouched. -/
theorem C5_counterexample :
    lineDispatch "&END XYZ" = LineKind.terminator
    ∧ strLower "&END XYZ" ≠ "&end"
    ∧ recursive_update 2 ["&END XYZ", "A 1"] [("x", Node.int 0)] =
        .ok (["A 1"], [("x", Node.int 0)]) :=
  ⟨rfl, by decide, rfl⟩

/-- C5, amended: a sanitized line ends the current block if and only if it
is non-empty and its first four characters case-insensitively equal the
terminator sentinel; any such line makes the builder return at once with
the container unchanged, so longer lines such as the counterexample's are
terminators too. -/
theorem C5_terminator_first_four (item : String) :
    (lineDispatch item = LineKind.terminator ↔
      (item ≠ "" ∧ strLower (strTake 4 item) = "&end"))
    ∧ ∀ (fuel : Nat) (rest : List String) (c : Dict),
        strLower (strTake 4 item) = "&end" →
        recursive_update (fuel + 1) (item :: rest) c = .ok (rest, c) := by
  have hcoord : strLower (strTake 4 item) = "&end" → strLower item ≠ "&coord" := by
    intro h4 hc
    rw [strLower_strTake, hc] at h4
    exact absurd h4 (by decide)
  have hne : strLower (strTake 4 item) = "&end" → item ≠ "" := by
    intro h4 he
    rw [he] at h4
    exact absurd h4 (by decide)
  have hiff : lineDispatch item = LineKind.terminator ↔
      (item ≠ "" ∧ strLower (strTake 4 item) = "&end") := by
    constructor
    · intro h
      unfold lineDispatch at h
      split at h
      · exact absurd h (by simp)
      · split at h
        · exact absurd h (by simp)
        · rename_i heq
          split at h
          · exact absurd h (by simp)
          · split at h
            · exact absurd h (by simp)
            · rename_i hif2
              refine ⟨fun he => ?_, by simpa using hif2⟩
              rw [he] at heq
              exact absurd heq (by simp)
    · rintro ⟨hne', h4⟩
      have hc : (strLower item == "&coord") = false := by
        simpa using hcoord h4
      unfold lineDispatch
      rw [hc]
      simp only [Bool.false_eq_true, if_neg]
      cases hdata : item.data with
      | nil => exact absurd (eq_empty_of_data_nil hdata) hne'
      | cons ch tl =>
        have h4b : (strLower (strTake 4 item) != "&end") = false := by
          simpa using h4
        simp [h4b]
  refine ⟨hiff, fun fuel rest c h4 => ?_⟩
  have hterm : lineDispatch item = LineKind.terminator :=
    hiff.mpr ⟨hne h4, h4⟩
  simp only [recursive_update, hterm]

/-- Witness for C5's amended statement at concrete over-long terminator
lines. -/
theorem C5_witness :
    lineDispatch "&ENDING" = LineKind.terminator
    ∧ recursive_update 1 ["&END X"] [] = .ok ([], []) :=
  ⟨(C5_terminator_first_four "&ENDING").1.mpr ⟨by decide, by decide⟩,
   (C5_terminator_first_four "&END X").2 0 [] [] (by decide)⟩

/-- C6: a line lowercasing to the coordinate sentinel followed by raw lines
(none of which lowercases to the terminator sentinel) and a terminator
stores all the raw lines, verbatim and in order, as a list under the inner
fixed key of a sub-mapping at the key coord, consumes the terminator, and
continues with the remaining lines. -/
theorem C6_coordinate_capture (fuel : Nat) (hdr : String) (ls : List String)
    (term : String) (rest : List String) (c : Dict)
    (hhdr : strLower hdr = "&coord")
    (hls : ∀ l ∈ ls, strLower l ≠ "&end")
    (hterm : strLower term = "&end") :
    recursive_update (fuel + 1) (hdr :: (ls ++ term :: rest)) c =
      recursive_update fuel rest
        (dictSet c "coord" (.dict [("_1", .list (ls.map Node.str))])) := by
  have hd : lineDispatch hdr = .coordBlock := (lineDispatch_coord_iff hdr).mpr hhdr
  simp only [recursive_update, hd, parse_coord_block,
    coordLoop_capture ls term rest hls hterm]

/-- Witness for C6 at a concrete two-line coordinate block. -/
theorem C6_witness :
    recursive_update 2 ["&COORD", "C 1 2 3", "H 4 5 6", "&End"] [] =
      .ok ([], [("coord", Node.dict [("_1",
        Node.list [Node.str "C 1 2 3", Node.str "H 4 5 6"])])]) :=
  (C6_coordinate_capture 1 "&COORD" ["C 1 2 3", "H 4 5 6"] "&End" [] []
    (by decide) (by decide) (by decide)).trans rfl

/-- C7: end-of-input asymmetry.  Exhausting the lines inside coordinate
capture (no terminator ever arrives) raises the generator-exhaustion
exception, while exhausting them with ordinary nested blocks still open
(no empty or coordinate lines anywhere) returns the tree built so far
successfully. -/
theorem C7_exhaustion_asymmetry :
    (∀ (fuel : Nat) (hdr : String) (ls : List String) (c : Dict),
      strLower hdr = "&coord" → (∀ l ∈ ls, strLower l ≠ "&end") →
      recursive_update (fuel + 1) (hdr :: ls) c = .error .stopIteration)
    ∧ (∀ (ls : List String) (c : Dict),
      (∀ l ∈ ls, l ≠ "" ∧ strLower l ≠ "&coord") →
      ∃ r c', recursive_update (ls.length + 1) ls c = .ok (r, c')) := by
  constructor
  · intro fuel hdr ls c hhdr hls
    have hd : lineDispatch hdr = .coordBlock :=
      (lineDispatch_coord_iff hdr).mpr hhdr
    simp only [recursive_update, hd, parse_coord_block,
      coordLoop_no_end ls hls]
  · intro ls c hpred
    exact recursive_update_total (ls.length + 1) ls c (Nat.lt_succ_self _) hpred

/-- Witness for C7: a dangling coordinate block raises, two dangling
ordinary blocks return successfully. -/
theorem C7_witness :
    recursive_update 1 ["&coord", "X 1 2"] [] = .error Err.stopIteration
    ∧ ∃ r c', recursive_update 3 ["&A", "B 1"] [] = .ok (r, c') :=
  ⟨C7_exhaustion_asymmetry.1 0 "&coord" ["X 1 2"] [] (by decide) (by decide),
   C7_exhaustion_asymmetry.2 ["&A", "B 1"] [] (by decide)⟩

/-- C8, counterexample: an input with an extra top-level terminator parses
without any error to the document built from the lines before the
terminator, silently ignoring the line after it. -/
theorem C8_counterexample :
    read_input_from ["A 1\n", "&END\n", "B 2\n"] = .ok [("a", Node.int 1)] :=
  rfl

/-- C8, amended: a terminator with no open block makes `recursive_update`
return early, and `read_input` ignores every line after it, returning the
partial document with no error, whatever those lines are. -/
theorem C8_extra_terminator_ignored (post : List String) :
    parse_sanitized ("A 1" :: "&END" :: post) = .ok [("a", Node.int 1)] := by
  have h : recursive_update (post.length + 1 + 1 + 1)
      ("A 1" :: "&END" :: post) [] = .ok (post, [("a", Node.int 1)]) := rfl
  simp [parse_sanitized, h]

theorem sanitize_last_aux {l1 : List Char} {c : Char}
    (h : (((dropTrailing pyWS l1).filter (fun c => c != '\t')).dropWhile
        (· == ' ')).getLast? = some c) :
    pyWS c = false := by
  set l2 := dropTrailing pyWS l1 with hl2def
  set l3 := l2.filter (fun c => c != '\t') with hl3def
  have h4ne : l3.dropWhile (· == ' ') ≠ [] := by
    intro he
    rw [he] at h
    simp at h
  have hsfx : l3.dropWhile (· == ' ') <:+ l3 := List.dropWhile_suffix _
  obtain ⟨t, ht⟩ := hsfx
  have h3 : l3.getLast? = some c := by
    rw [← ht, List.getLast?_append_of_ne_nil t h4ne]
    exact h
  have h3r : l3.reverse.head? = some c := by
    rw [List.head?_reverse]
    exact h3
  have hrw : l3.reverse = l2.reverse.filter (fun c => c != '\t') := by
    rw [hl3def, List.filter_reverse]
  rw [hrw] at h3r
  have hl2 : l2.reverse = l1.reverse.dropWhile pyWS := by
    rw [hl2def]
    unfold dropTrailing
    rw [List.reverse_reverse]
  rw [hl2] at h3r
  cases hdW : l1.reverse.dropWhile pyWS with
  | nil => rw [hdW] at h3r; simp at h3r
  | cons c0 t0 =>
    rw [hdW] at h3r
    have hc0 : pyWS c0 = false := by
      have hh := List.head?_dropWhile_not pyWS l1.reverse
      rw [hdW] at hh
      exact hh
    have hq0 : (c0 != '\t') = true := by
      have hne0 : c0 ≠ '\t' := by
        intro he
        rw [he] at hc0
        exact absurd hc0 (by decide)
      simpa using hne0
    simp only [List.filter_cons, hq0] at h3r
    simp at h3r
    exact h3r ▸ hc0

/-- C9: the sanitizer drops a bare-newline line, keeps a whitespace line
other than a bare newline and emits it as the empty string, and every
emitted line has no tab characters, no leading space, and no trailing
whitespace. -/
theorem C9_line_sanitizer :
    (∀ raw : List String, sanitize_input ("\n" :: raw) = sanitize_input raw)
    ∧ (∀ (s : String) (raw : List String), s ≠ "\n" →
        (∀ c ∈ s.data, pyWS c = true) →
        sanitize_input (s :: raw) = "" :: sanitize_input raw)
    ∧ (∀ s : String, '\t' ∉ (sanitize_line s).data
        ∧ (∀ c : Char, (sanitize_line s).data.head? = some c → c ≠ ' ')
        ∧ (∀ c : Char, (sanitize_line s).data.getLast? = some c →
            pyWS c = false)) := by
  refine ⟨?_, ?_, ?_⟩
  · intro raw
    simp [sanitize_input]
  · intro s raw hs hws
    have hkeep : (s != "\n") = true := by simpa using hs
    have hempty : sanitize_line s = "" := by
      simp only [sanitize_line]
      rw [dropTrailing_eq_nil
        (fun c hc => hws c (mem_dropTrailing hc))]
      rfl
    simp [sanitize_input, List.filter_cons, hkeep, hempty]
  · intro s
    refine ⟨?_, ?_, ?_⟩
    · intro hmem
      simp only [sanitize_line, data_mk] at hmem
      have h1 := (List.dropWhile_sublist (fun c => c == ' ')).subset hmem
      have h2 := (List.mem_filter.mp h1).2
      simp at h2
    · intro c h
      simp only [sanitize_line, data_mk] at h
      have := head?_drop_not h
      simpa using this
    · intro c h
      simp only [sanitize_line, data_mk] at h
      exact sanitize_last_aux h

/-- Witness for C9 at a concrete whitespace line and a concrete tabbed
line. -/
theorem C9_witness :
    sanitize_input [" \t", "x"] = ["", "x"]
    ∧ '\t' ∉ (sanitize_line "a\tb ").data :=
  ⟨C9_line_sanitizer.2.1 " \t" ["x"] (by decide) (by decide),
   (C9_line_sanitizer.2.2 "a\tb ").1⟩

/-- C10: an input whose only line is whitespace other than a bare newline
is accepted by the reader, sanitized to the empty string, and then crashes
the per-line dispatch with the out-of-bounds indexing exception instead of
producing a document; the dispatch hits that exception exactly on the
empty line. -/
theorem C10_empty_line_crash :
    read_input_from ["  \n"] = .error Err.indexError
    ∧ ∀ item : String, lineDispatch item = LineKind.indexErr ↔ item = "" :=
  ⟨rfl, lineDispatch_indexErr_iff⟩

/-- Witness for C10 applying the dispatch characterization at the empty
line. -/
theorem C10_witness : lineDispatch "" = LineKind.indexErr :=
  (C10_empty_line_crash.2 "").mpr rfl
